import Mathlib

/-!
Verification of the MLP engine in `nn.py` (repository RojerGS/education,
directory `neural-networks-fundamentals-with-python`).

Vectors (numpy column vectors of shape n×1) are embedded as `List ℝ`;
matrices as `List (List ℝ)` (list of rows).  numpy's elementwise
operations are embedded pointwise via `List.map` / `List.zipWith`.
The random parameter initialisation (`create_weight_matrix`,
`create_bias_vector`) is not modelled as a distribution: a `Layer` carries
its weight matrix and bias vector as data, and the shape invariant the
random initialisers guarantee is captured by `Layer.WF`.
-/

noncomputable section

namespace nn

abbrev Vec := List ℝ

abbrev Mat := List (List ℝ)

/-- Dot product of two equally long vectors (`np.dot` on flat rows). -/
def dot (a b : Vec) : ℝ := (List.zipWith (fun s u => s * u) a b).sum

/-- `np.dot(W, x)` for a matrix `W` and a column vector `x`. -/
def matVec (W : Mat) (x : Vec) : Vec := W.map (fun r => dot r x)

/-- Elementwise vector addition (numpy `+`). -/
def vadd (a b : Vec) : Vec := List.zipWith (fun s u => s + u) a b

/-- Elementwise vector subtraction (numpy `-`). -/
def vsub (a b : Vec) : Vec := List.zipWith (fun s u => s - u) a b

/-- Elementwise vector product (numpy `*`). -/
def hadamard (a b : Vec) : Vec := List.zipWith (fun s u => s * u) a b

/-- Scalar times vector. -/
def smulV (c : ℝ) (v : Vec) : Vec := v.map (fun u => c * u)

/-- Elementwise matrix subtraction. -/
def msub (A B : Mat) : Mat := List.zipWith vsub A B

/-- Scalar times matrix. -/
def smulM (c : ℝ) (A : Mat) : Mat := A.map (smulV c)

/-- Matrix transpose (`.T`), for matrices stored as lists of rows. -/
def transpose (A : Mat) : Mat :=
  (List.range (A.headD []).length).map (fun j => A.map (fun r => r.getD j 0))

/-- Outer product `np.dot(u, v.T)` of two column vectors. -/
def outer (u v : Vec) : Mat := u.map (fun s => v.map (fun t => s * t))

/-- An activation function: `f` and its derivative `df`, both applied
elementwise by the engine (numpy's vectorised operations are embedded as
the corresponding pointwise real functions). -/
structure ActivationFunction where
  f : ℝ → ℝ
  df : ℝ → ℝ

/-- `class Id`: `f(x) = x`, `df(x) = np.ones(x.shape)`. -/
def Id : ActivationFunction := ⟨fun t => t, fun _ => 1⟩

/-- `class ELU`: `f` is `alpha*(exp(x)-1)` overwritten with `x` where
`x > 0`; `df` is `np.maximum(x >= 0, alpha*(x < 0)*np.exp(x))`, where the
boolean arrays coerce to 0/1. -/
def ELU (alpha : ℝ) : ActivationFunction :=
  ⟨fun t => if 0 < t then t else alpha * (Real.exp t - 1),
   fun t => max (if 0 ≤ t then 1 else 0) (alpha * (if t < 0 then 1 else 0) * Real.exp t)⟩

/-- `class LeakyReLU`: `f` is `np.maximum(x, x*alpha)`; `df` is
`np.maximum(x > 0, alpha)` with the boolean array coercing to 0/1. -/
def LeakyReLU (leaky_param : ℝ) : ActivationFunction :=
  ⟨fun t => max t (t * leaky_param),
   fun t => max (if 0 < t then 1 else 0) leaky_param⟩

/-- `class ReLU(LeakyReLU)`: the leaky variant constructed with leak 0. -/
def ReLU : ActivationFunction := LeakyReLU 0

/-- `class Sigmoid`. -/
def Sigmoid : ActivationFunction :=
  ⟨fun t => 1 / (1 + Real.exp (-t)),
   fun t => (1 / (1 + Real.exp (-t))) * (1 - 1 / (1 + Real.exp (-t)))⟩

/-- `class Tanh`. -/
def Tanh : ActivationFunction :=
  ⟨fun t => Real.tanh t, fun t => 1 - (Real.tanh t) ^ 2⟩

/-- `class ArcTan`. -/
def ArcTan : ActivationFunction :=
  ⟨fun t => Real.arctan t, fun t => 1 / (1 + t ^ 2)⟩

/-- A loss function against targets of type `τ` (a vector for MSE, an
integer class index for cross-entropy). -/
structure LossFunction (τ : Type) where
  loss : Vec → τ → ℝ
  dloss : Vec → τ → Vec

/-- `class MSELoss`: `loss = np.mean((values - expected)**2)` and
`dloss = 2*(values - expected)/values.size`. -/
def MSELoss : LossFunction Vec :=
  ⟨fun v e => (List.zipWith (fun s u => (s - u) ^ 2) v e).sum / v.length,
   fun v e => List.zipWith (fun s u => 2 * (s - u) / v.length) v e⟩

/-- `class CrossEntropyLoss`: `loss = -values[expected, 0] +
log(sum(exp(values)))`; `dloss = exp(values)/sum(exp(values))` with `1`
subtracted from entry `expected`.  Python raises for an out-of-range
index; the claims about this loss all assume a valid index, under which
the `getD` default is never consulted. -/
def CrossEntropyLoss : LossFunction ℕ :=
  ⟨fun v t => -(v.getD t 0) + Real.log ((v.map Real.exp).sum),
   fun v t =>
     let d := v.map (fun s => Real.exp s / (v.map Real.exp).sum)
     d.set t (d.getD t 0 - 1)⟩

/-- The softmax of a vector, following the spec's wording for the
cross-entropy gradient (`dloss = softmax(output)`, then subtract 1 from
entry `t`). -/
def softmax (v : Vec) : Vec := v.map (fun s => Real.exp s / (v.map Real.exp).sum)

/-- `class Layer`: input width, output width, activation, weight matrix
of shape `outs × ins` and bias vector of shape `outs × 1`. -/
structure Layer where
  ins : ℕ
  outs : ℕ
  act_function : ActivationFunction
  W : Mat
  b : Vec

/-- The shape invariant established by `Layer.__init__` through
`create_weight_matrix(outs, ins)` and `create_bias_vector(outs)`. -/
def Layer.WF (l : Layer) : Prop :=
  l.W.length = l.outs ∧ (∀ r ∈ l.W, r.length = l.ins) ∧ l.b.length = l.outs

/-- `Layer.forward_pass`: `act_function.f(np.dot(W, x) + b)`. -/
def Layer.forward_pass (l : Layer) (x : Vec) : Vec :=
  (vadd (matVec l.W x) l.b).map l.act_function.f

/-- `class NeuralNetwork`: layers, loss function and learning rate. -/
structure NeuralNetwork (τ : Type) where
  layers : List Layer
  loss_function : LossFunction τ
  lr : ℝ

/-- The compatibility check of `NeuralNetwork.__init__`: iterate over
`zip(layers[:-1], layers[1:])` and require `from_.outs == to_.ins`. -/
def checkCompatible (layers : List Layer) : Bool :=
  (layers.dropLast.zip layers.tail).all (fun p => p.1.outs == p.2.ins)

/-- `NeuralNetwork.__init__` as a fallible constructor: the Python code
raises `ValueError("Layers should have compatible shapes.")` when the
check fails, and otherwise stores the three attributes unchanged. -/
def mkNetwork (layers : List Layer) (lf : LossFunction τ) (lr : ℝ) :
    Except String (NeuralNetwork τ) :=
  if checkCompatible layers then Except.ok ⟨layers, lf, lr⟩
  else Except.error "Layers should have compatible shapes."

/-- `NeuralNetwork.forward_pass`: fold `x` through each layer in order
(the Python `for layer in self._layers: out = layer.forward_pass(out)`). -/
def NeuralNetwork.forward_pass (net : NeuralNetwork τ) (x : Vec) : Vec :=
  net.layers.foldl (fun out l => l.forward_pass out) x

/-- `NeuralNetwork.loss`: delegates to the configured loss function. -/
def NeuralNetwork.loss (net : NeuralNetwork τ) (values : Vec) (expected : τ) : ℝ :=
  net.loss_function.loss values expected

/-- The list `xs` accumulated by `train`'s forward sweep: the input of
every layer in order, followed by the final output. -/
def xsList : List Layer → Vec → List Vec
  | [], x => [x]
  | l :: ls, x => x :: xsList ls (l.forward_pass x)

/-- One backward-sweep parameter update for a single layer, with the
incoming gradient `dx` and the layer's recorded input `xi`:
`y = W·xi + b`, `db = df(y) ⊙ dx`, `dW = db·xiᵀ`, and the layer's
parameters become `W - lr·dW` and `b - lr·db`. -/
def updLayer (lr : ℝ) (l : Layer) (xi dx : Vec) : Layer :=
  let y := vadd (matVec l.W xi) l.b
  let db := hadamard (y.map l.act_function.df) dx
  { l with W := msub l.W (smulM lr (outer db xi)), b := vsub l.b (smulV lr db) }

/-- The gradient `train` propagates to the layer below: `Wᵀ·db`, computed
from the weights as they stood before the layer's update. -/
def dxProp (l : Layer) (xi dx : Vec) : Vec :=
  let y := vadd (matVec l.W xi) l.b
  let db := hadamard (y.map l.act_function.df) dx
  matVec (transpose l.W) db

/-- The backward loop of `train`, over the reversed `zip` of layers and
their recorded inputs, threading the gradient `dx` and producing the
updated layers in the order visited (i.e. reversed). -/
def backUpdate (lr : ℝ) : List (Layer × Vec) → Vec → List Layer
  | [], _ => []
  | (l, xi) :: rest, dx => updLayer lr l xi dx :: backUpdate lr rest (dxProp l xi dx)

/-- The gradient left in `dx` after the backward loop has consumed a list
of (layer, recorded input) pairs. -/
def dxAfter (lr : ℝ) : List (Layer × Vec) → Vec → Vec
  | [], dx => dx
  | (l, xi) :: rest, dx => dxAfter lr rest (dxProp l xi dx)

/-- `NeuralNetwork.train`: the forward sweep records `xs`, `xs.pop()`
(= last element) seeds `dx` through `dloss`, and the backward loop runs
over `zip(layers[::-1], xs[::-1])`, updating every layer in place; in
this functional embedding the updated network is returned.  `lr` is
unused by `backUpdate` on the empty list, matching the degenerate
layer-free case. -/
def NeuralNetwork.train (net : NeuralNetwork τ) (x : Vec) (t : τ) : NeuralNetwork τ :=
  let xs := xsList net.layers x
  let dx := net.loss_function.dloss (xs.getLastD []) t
  { net with layers := (backUpdate net.lr ((net.layers.reverse).zip (xs.dropLast.reverse)) dx).reverse }

/-- The sequential composition of the layers' forward passes, output of
layer i feeding layer i+1 — the spec's description of the network
forward pass. -/
def forwardSeq : List Layer → Vec → Vec
  | [], x => x
  | l :: ls, x => forwardSeq ls (l.forward_pass x)

/-- The list of inputs recorded for each layer during the forward sweep
(the spec's `xs` after the final output has been popped). -/
def inputsList : List Layer → Vec → List Vec
  | [], _ => []
  | l :: ls, x => x :: inputsList ls (l.forward_pass x)

/-- The spec's backward sweep, as a structural recursion over the layers:
on the empty suffix the running value is the final output and seeds `dx`
via `dloss`; otherwise the tail is processed first (it is deeper in the
network) and then the current layer is updated with the gradient the
tail propagated back.  Returns the updated layers and the gradient for
the layer below. -/
def backSpec (lr : ℝ) (lf : LossFunction τ) (t : τ) :
    List Layer → Vec → List Layer × Vec
  | [], out => ([], lf.dloss out t)
  | l :: ls, xi =>
    let p := backSpec lr lf t ls (l.forward_pass xi)
    (updLayer lr l xi p.2 :: p.1, dxProp l xi p.2)

/-- The spec's description of `train(x, t)` (spec §4.5): one forward
sweep, seed `dx` with `dloss(final output, t)`, then the reverse-order
per-layer update; only the layers change. -/
def trainSpec (net : NeuralNetwork τ) (x : Vec) (t : τ) : NeuralNetwork τ :=
  { net with layers := (backSpec net.lr net.loss_function t net.layers x).1 }

/-- `Layer.forward_pass` in state-passing form: the returned layer is the
layer as it stands after the call (the Python method body assigns to no
attribute, so it is the receiver itself). -/
def Layer.forwardPassS (l : Layer) (x : Vec) : Vec × Layer :=
  (l.forward_pass x, l)

/-- The network forward loop in state-passing form, threading each
layer's post-call state. -/
def forwardLayersS : List Layer → Vec → Vec × List Layer
  | [], x => (x, [])
  | l :: ls, x =>
    let p := l.forwardPassS x
    let q := forwardLayersS ls p.1
    (q.1, p.2 :: q.2)

/-- `NeuralNetwork.forward_pass` in state-passing form. -/
def NeuralNetwork.forwardPassS (net : NeuralNetwork τ) (x : Vec) :
    Vec × NeuralNetwork τ :=
  let q := forwardLayersS net.layers x
  (q.1, { net with layers := q.2 })

/-- `NeuralNetwork.loss` in state-passing form: the body only reads. -/
def NeuralNetwork.lossS (net : NeuralNetwork τ) (values : Vec) (expected : τ) :
    ℝ × NeuralNetwork τ :=
  (net.loss_function.loss values expected, net)

/-- A concrete well-formed layer used to instantiate shape statements:
`Layer(1, 2, Id)` with `W = [[1],[2]]`, `b = [3,4]`. -/
def c3L : Layer := ⟨1, 2, Id, [[1], [2]], [3, 4]⟩

/-- A layer-free network with the cross-entropy loss: `train` has no
parameters to update, so it is a fixpoint of training. -/
def constNet : NeuralNetwork ℕ := ⟨[], CrossEntropyLoss, 1⟩

/-- `constNet` after `n` repeated `train([0,0], 0)` calls. -/
def constIter (n : ℕ) : NeuralNetwork ℕ :=
  (fun m => m.train [0, 0] 0)^[n] constNet

/-- The loss `loss(forward_pass([0,0]), 0)` of `constNet` after `n`
training calls. -/
def constLoss (n : ℕ) : ℝ :=
  (constIter n).loss ((constIter n).forward_pass [0, 0]) 0

/-- The single layer `Layer(1, 2, Id)` of the overfitting scenario, with
parameters `W = [[c],[-c]]`, `b = [c,-c]`. -/
def demoLayer (c : ℝ) : Layer := ⟨1, 2, Id, [[c], [-c]], [c, -c]⟩

/-- The one-layer cross-entropy network of the overfitting scenario,
with learning rate 1. -/
def demoNet (c : ℝ) : NeuralNetwork ℕ := ⟨[demoLayer c], CrossEntropyLoss, 1⟩

/-- The parameter evolution of one `train([1], 0)` call on `demoNet c`. -/
def demoStep (c : ℝ) : ℝ :=
  c + Real.exp (-(2 * c)) / (Real.exp (2 * c) + Real.exp (-(2 * c)))

/-- The layer parameter after `n` training calls, starting from 0. -/
def demoC (n : ℕ) : ℝ := demoStep^[n] 0

/-- `demoNet 0` after `n` repeated `train([1], 0)` calls. -/
def demoIter (n : ℕ) : NeuralNetwork ℕ :=
  (fun m => m.train [1] 0)^[n] (demoNet 0)

/-- The loss `loss(forward_pass([1]), 0)` after `n` training calls on
the overfitting scenario. -/
def demoLoss (n : ℕ) : ℝ :=
  (demoIter n).loss ((demoIter n).forward_pass [1]) 0

/-! ## Helper lemmas -/

theorem xsList_eq (ls : List Layer) :
    ∀ x : Vec, xsList ls x = inputsList ls x ++ [forwardSeq ls x] := by
  induction ls with
  | nil => intro x; simp [xsList, inputsList, forwardSeq]
  | cons l ls ih => intro x; simp [xsList, inputsList, forwardSeq, ih]

theorem inputsList_length (ls : List Layer) :
    ∀ x : Vec, (inputsList ls x).length = ls.length := by
  induction ls with
  | nil => intro x; simp [inputsList]
  | cons l ls ih => intro x; simp [inputsList, ih]

theorem foldl_forward (ls : List Layer) :
    ∀ x : Vec, ls.foldl (fun out l => l.forward_pass out) x = forwardSeq ls x := by
  induction ls with
  | nil => intro x; simp [forwardSeq]
  | cons l ls ih => intro x; simp [forwardSeq, ih]

theorem forward_pass_eq_seq (net : NeuralNetwork τ) (x : Vec) :
    net.forward_pass x = forwardSeq net.layers x :=
  foldl_forward net.layers x

theorem backUpdate_append (lr : ℝ) (ps qs : List (Layer × Vec)) :
    ∀ dx : Vec, backUpdate lr (ps ++ qs) dx =
      backUpdate lr ps dx ++ backUpdate lr qs (dxAfter lr ps dx) := by
  induction ps with
  | nil => intro dx; simp [backUpdate, dxAfter]
  | cons p ps ih => intro dx; cases p; simp [backUpdate, dxAfter, ih]

theorem dxAfter_append (lr : ℝ) (ps qs : List (Layer × Vec)) :
    ∀ dx : Vec, dxAfter lr (ps ++ qs) dx = dxAfter lr qs (dxAfter lr ps dx) := by
  induction ps with
  | nil => intro dx; simp [dxAfter]
  | cons p ps ih => intro dx; cases p; simp [dxAfter, ih]

theorem backSpec_eq (lr : ℝ) (lf : LossFunction τ) (t : τ) (ls : List Layer) :
    ∀ x : Vec,
      (backSpec lr lf t ls x).1 =
        (backUpdate lr ((ls.reverse).zip ((xsList ls x).dropLast.reverse))
          (lf.dloss ((xsList ls x).getLastD []) t)).reverse
      ∧ (backSpec lr lf t ls x).2 =
        dxAfter lr ((ls.reverse).zip ((xsList ls x).dropLast.reverse))
          (lf.dloss ((xsList ls x).getLastD []) t) := by
  induction ls with
  | nil =>
    intro x
    simp [backSpec, xsList, backUpdate, dxAfter]
  | cons l ls ih =>
    intro x
    have h1 : xsList (l :: ls) x =
        (x :: inputsList ls (l.forward_pass x)) ++ [forwardSeq ls (l.forward_pass x)] := by
      simp [xsList, xsList_eq]
    have hlast : (xsList (l :: ls) x).getLastD [] = forwardSeq ls (l.forward_pass x) := by
      rw [h1, List.getLastD_concat]
    have hdrop : (xsList (l :: ls) x).dropLast = x :: inputsList ls (l.forward_pass x) := by
      rw [h1, List.dropLast_concat]
    have hlen : (ls.reverse).length = ((inputsList ls (l.forward_pass x)).reverse).length := by
      simp [inputsList_length]
    have hzip : ((l :: ls).reverse).zip ((xsList (l :: ls) x).dropLast.reverse) =
        ((ls.reverse).zip ((inputsList ls (l.forward_pass x)).reverse)) ++ [(l, x)] := by
      rw [hdrop, List.reverse_cons, List.reverse_cons, List.zip_append hlen]
      simp
    have ihx := ih (l.forward_pass x)
    have ih1 := ihx.1
    have ih2 := ihx.2
    rw [xsList_eq ls (l.forward_pass x), List.getLastD_concat, List.dropLast_concat] at ih1 ih2
    constructor
    · show (updLayer lr l x (backSpec lr lf t ls (l.forward_pass x)).2 ::
        (backSpec lr lf t ls (l.forward_pass x)).1) = _
      rw [hzip, hlast, backUpdate_append, List.reverse_append, ih1, ih2]
      simp [backUpdate]
    · show dxProp l x (backSpec lr lf t ls (l.forward_pass x)).2 = _
      rw [hzip, hlast, dxAfter_append, ih2]
      simp [dxAfter]

theorem train_eq_trainSpec (net : NeuralNetwork τ) (x : Vec) (t : τ) :
    net.train x t = trainSpec net x t := by
  have h := (backSpec_eq net.lr net.loss_function t net.layers x).1
  simp only [NeuralNetwork.train, trainSpec]
  rw [h]

theorem backSpec_shape (lr : ℝ) (lf : LossFunction τ) (t : τ) (ls : List Layer) :
    ∀ x : Vec,
      List.Forall₂ (fun a b => b.ins = a.ins ∧ b.outs = a.outs ∧
        b.act_function = a.act_function) ls (backSpec lr lf t ls x).1 := by
  induction ls with
  | nil => intro x; simp [backSpec]
  | cons l ls ih =>
    intro x
    exact List.Forall₂.cons (by simp [updLayer]) (ih (l.forward_pass x))

theorem checkCompatible_cons₂ (a b : Layer) (rest : List Layer) :
    checkCompatible (a :: b :: rest) =
      ((a.outs == b.ins) && checkCompatible (b :: rest)) := by
  simp [checkCompatible]

theorem checkCompatible_iff (layers : List Layer) :
    checkCompatible layers = true ↔
      ∀ i a b, layers[i]? = some a → layers[i + 1]? = some b → a.outs = b.ins := by
  induction layers with
  | nil => simp [checkCompatible]
  | cons a tl ih =>
    cases tl with
    | nil =>
      simp [checkCompatible]
    | cons b rest =>
      rw [checkCompatible_cons₂, Bool.and_eq_true, beq_iff_eq, ih]
      constructor
      · rintro ⟨hab, h⟩ i x y hx hy
        cases i with
        | zero =>
          simp at hx hy
          rw [← hx, ← hy]
          exact hab
        | succ n =>
          simp only [List.getElem?_cons_succ] at hx hy
          exact h n x y hx (by simpa using hy)
      · intro h
        refine ⟨h 0 a b (by simp) (by simp), ?_⟩
        intro i x y hx hy
        exact h (i + 1) x y (by simpa using hx) (by simpa using hy)

theorem sum_map_div (l : List ℝ) (g : ℝ → ℝ) (c : ℝ) :
    (l.map (fun s => g s / c)).sum = (l.map g).sum / c := by
  simp only [div_eq_mul_inv]
  exact List.sum_map_mul_right l g c⁻¹

theorem sum_set_eq (l : List ℝ) :
    ∀ (i : ℕ) (x : ℝ), i < l.length →
      (l.set i x).sum = l.sum - l.getD i 0 + x := by
  induction l with
  | nil => intro i x h; simp at h
  | cons a tl ih =>
    intro i x h
    cases i with
    | zero => simp [List.set]; ring
    | succ n =>
      have hn : n < tl.length := by simpa using h
      simp only [List.set, List.sum_cons, List.getD_cons_succ, ih n x hn]
      ring

theorem exp_sum_pos (v : Vec) (hv : v ≠ []) : 0 < (v.map Real.exp).sum := by
  refine List.sum_pos _ ?_ (by simpa using hv)
  intro x hx
  rcases List.mem_map.mp hx with ⟨s, _, rfl⟩
  exact Real.exp_pos s

theorem softmax_sum (v : Vec) (hv : v ≠ []) : (softmax v).sum = 1 := by
  have hS := exp_sum_pos v hv
  rw [softmax, sum_map_div]
  exact div_self hS.ne'

theorem zipWith_sq_sum_nonneg :
    ∀ v e : Vec, 0 ≤ (List.zipWith (fun s u => (s - u) ^ 2) v e).sum := by
  intro v
  induction v with
  | nil => intro e; simp
  | cons a tl ih =>
    intro e
    cases e with
    | nil => simp
    | cons b te =>
      simp only [List.zipWith_cons_cons, List.sum_cons]
      exact add_nonneg (sq_nonneg _) (ih te)

theorem forwardLayersS_eq (ls : List Layer) :
    ∀ x : Vec, forwardLayersS ls x = (forwardSeq ls x, ls) := by
  induction ls with
  | nil => intro x; simp [forwardLayersS, forwardSeq]
  | cons l ls ih => intro x; simp [forwardLayersS, forwardSeq, Layer.forwardPassS, ih]

/-! ## Claim theorems -/

/-- C1: a single `train(x, t)` call performs exactly one gradient-descent
update: the forward sweep records each layer's input, `dx` is seeded with
`dloss(final output, t)`, and the reverse-order per-layer update
recomputes `y = W·x_layer + b`, sets `db = df(y) ⊙ dx`, propagates
`dx = Wᵀ·db` with the pre-update weights, sets `dW = db·x_layerᵀ`, and
replaces the parameters by `W - lr·dW`, `b - lr·db` (the content of
`trainSpec`/`backSpec`); the loss function, the learning rate and every
layer's widths and activation are untouched, so the parameter updates
are the call's only effect. -/
theorem c1_train_is_one_backprop_update (net : NeuralNetwork τ) (x : Vec) (t : τ) :
    net.train x t = trainSpec net x t
    ∧ (net.train x t).loss_function = net.loss_function
    ∧ (net.train x t).lr = net.lr
    ∧ List.Forall₂ (fun a b => b.ins = a.ins ∧ b.outs = a.outs ∧
        b.act_function = a.act_function) net.layers (net.train x t).layers := by
  refine ⟨train_eq_trainSpec net x t, rfl, rfl, ?_⟩
  rw [train_eq_trainSpec net x t]
  exact backSpec_shape net.lr net.loss_function t net.layers x

/-- C2: `NeuralNetwork` construction fails with the configuration error
iff some adjacent pair of layers has the earlier `outs` unequal to the
later `ins`; when every adjacent pair is compatible, construction
succeeds and stores the attributes unchanged. -/
theorem c2_construction_error_iff (layers : List Layer) (lf : LossFunction τ) (lr : ℝ) :
    ((mkNetwork layers lf lr = Except.error "Layers should have compatible shapes.") ↔
      ∃ i a b, layers[i]? = some a ∧ layers[i + 1]? = some b ∧ a.outs ≠ b.ins)
    ∧ ((mkNetwork layers lf lr = Except.ok ⟨layers, lf, lr⟩) ↔
      ∀ i a b, layers[i]? = some a → layers[i + 1]? = some b → a.outs = b.ins) := by
  by_cases h : checkCompatible layers = true
  · have hall := (checkCompatible_iff layers).mp h
    constructor
    · simp only [mkNetwork, h, if_true]
      constructor
      · intro hcontra; exact absurd hcontra (by simp)
      · rintro ⟨i, a, b, ha, hb, hne⟩; exact absurd (hall i a b ha hb) hne
    · simp only [mkNetwork, h, if_true]
      exact ⟨fun _ => hall, fun _ => trivial⟩
  · have h' : ¬ ∀ i a b, layers[i]? = some a → layers[i + 1]? = some b →
        a.outs = b.ins :=
      fun hall => h ((checkCompatible_iff layers).mpr hall)
    push_neg at h'
    obtain ⟨i, a, b, ha, hb, hne⟩ := h'
    have hcf : checkCompatible layers = false := by
      cases hcc : checkCompatible layers with
      | false => rfl
      | true => exact absurd hcc h
    constructor
    · simp only [mkNetwork, hcf, Bool.false_eq_true, if_false]
      exact ⟨fun _ => ⟨i, a, b, ha, hb, hne⟩, fun _ => trivial⟩
    · simp only [mkNetwork, hcf, Bool.false_eq_true, if_false]
      constructor
      · intro hcontra; exact absurd hcontra (by simp)
      · intro hall; exact absurd (hall i a b ha hb) hne

/-- C3: for a well-formed layer and an input of width `ins`,
`Layer.forward_pass(x)` is `act_function.f(W·x + b)` and has exactly
`outs` entries; and the network forward pass is the sequential
composition of the layers' forward passes. -/
theorem c3_forward_pass (l : Layer) (x : Vec) (hl : l.WF) (hx : x.length = l.ins) :
    l.forward_pass x = (vadd (matVec l.W x) l.b).map l.act_function.f
    ∧ (l.forward_pass x).length = l.outs
    ∧ ∀ (σ : Type) (net : NeuralNetwork σ) (y : Vec),
        net.forward_pass y = forwardSeq net.layers y := by
  refine ⟨rfl, ?_, fun σ net y => forward_pass_eq_seq net y⟩
  obtain ⟨hW, hrows, hb⟩ := hl
  simp [Layer.forward_pass, vadd, matVec, hW, hb]

/-- C3 witness: the concrete layer `c3L` with input `[5]`. -/
theorem c3_forward_pass_witness :
    c3L.WF ∧ ([5] : Vec).length = c3L.ins ∧ (c3L.forward_pass [5]).length = c3L.outs := by
  have hwf : c3L.WF := by
    refine ⟨rfl, ?_, rfl⟩
    intro r hr
    rcases List.mem_cons.mp hr with h | h
    · rw [h]; rfl
    · rcases List.mem_cons.mp h with h2 | h2
      · rw [h2]; rfl
      · cases h2
  exact ⟨hwf, rfl, (c3_forward_pass c3L [5] hwf rfl).2.1⟩

/-- C8: `Layer.forward_pass`, `NeuralNetwork.forward_pass` and
`NeuralNetwork.loss`, run in state-passing form, return the network
state unchanged (their Python bodies assign to no attribute), and their
values agree with the pure functions. -/
theorem c8_forward_and_loss_do_not_mutate (net : NeuralNetwork τ) (l : Layer)
    (x v : Vec) (e : τ) :
    (l.forwardPassS x).2 = l
    ∧ (l.forwardPassS x).1 = l.forward_pass x
    ∧ (net.forwardPassS x).2 = net
    ∧ (net.forwardPassS x).1 = net.forward_pass x
    ∧ (net.lossS v e).2 = net
    ∧ (net.lossS v e).1 = net.loss v e := by
  refine ⟨rfl, rfl, ?_, ?_, rfl, rfl⟩
  · simp [NeuralNetwork.forwardPassS, forwardLayersS_eq]
  · simp [NeuralNetwork.forwardPassS, forwardLayersS_eq, forward_pass_eq_seq]

/-- C10: the empty layer list passes the construction check vacuously;
the resulting network's forward pass is the identity, and `train` leaves
the network unchanged (it evaluates the loss gradient and discards it). -/
theorem c10_empty_network (lf : LossFunction τ) (lr : ℝ) (x : Vec) (t : τ) :
    mkNetwork ([] : List Layer) lf lr = Except.ok ⟨[], lf, lr⟩
    ∧ (NeuralNetwork.mk [] lf lr).forward_pass x = x
    ∧ (NeuralNetwork.mk [] lf lr).train x t = NeuralNetwork.mk [] lf lr := by
  refine ⟨?_, rfl, ?_⟩
  · simp [mkNetwork, checkCompatible]
  · simp [NeuralNetwork.train, xsList, backUpdate]

/-- C4: for a valid class index `t`, the cross-entropy gradient is the
softmax of the output with 1 subtracted from entry `t`, and its entries
sum to 0. -/
theorem c4_cross_entropy_dloss (v : Vec) (t : ℕ) (h : t < v.length) :
    CrossEntropyLoss.dloss v t = (softmax v).set t ((softmax v).getD t 0 - 1)
    ∧ (CrossEntropyLoss.dloss v t).sum = 0 := by
  have hv : v ≠ [] := by intro hnil; rw [hnil] at h; simp at h
  have hd : CrossEntropyLoss.dloss v t =
      (softmax v).set t ((softmax v).getD t 0 - 1) := rfl
  refine ⟨hd, ?_⟩
  rw [hd]
  have hlen : t < (softmax v).length := by simpa [softmax] using h
  rw [sum_set_eq (softmax v) t _ hlen, softmax_sum v hv]
  ring

/-- C4 witness: the output `[0, 0]` with class index 0. -/
theorem c4_cross_entropy_dloss_witness :
    0 < ([0, 0] : Vec).length ∧ (CrossEntropyLoss.dloss [0, 0] 0).sum = 0 :=
  ⟨by norm_num, (c4_cross_entropy_dloss [0, 0] 0 (by norm_num)).2⟩

/-- C5 counterexample: the claim's formula for the Leaky-ReLU derivative
fails outside 0 ≤ α ≤ 1.  The code computes `np.maximum(x > 0, alpha)`,
so with α = 2 the derivative at the positive input 1 is 2, not the
claimed 1, and with α = −1 the derivative at the negative input −1 is 0,
not the claimed α = −1. -/
theorem c5_counterexample :
    List.map (LeakyReLU 2).df [(1 : ℝ)] ≠ [(1 : ℝ)]
    ∧ List.map (LeakyReLU (-1)).df [(-1 : ℝ)] ≠ [(-1 : ℝ)] := by
  constructor
  · intro hcontra
    simp only [LeakyReLU, List.map_cons, List.map_nil, List.cons.injEq, and_true] at hcontra
    rw [if_pos (by norm_num)] at hcontra
    rw [max_eq_right (by norm_num : (1:ℝ) ≤ 2)] at hcontra
    norm_num at hcontra
  · intro hcontra
    simp only [LeakyReLU, List.map_cons, List.map_nil, List.cons.injEq, and_true] at hcontra
    rw [if_neg (by norm_num)] at hcontra
    rw [max_eq_left (by norm_num : (-1:ℝ) ≤ 0)] at hcontra
    norm_num at hcontra

/-- C5 (amended): for a leak parameter with 0 ≤ α ≤ 1, `f` is the
elementwise maximum of `x` and `αx`, and `df` is elementwise 1 where
`x > 0` and α elsewhere. -/
theorem c5_leaky_relu (α : ℝ) (h0 : 0 ≤ α) (h1 : α ≤ 1) (x : Vec) :
    x.map (LeakyReLU α).f = x.map (fun u => max u (α * u))
    ∧ x.map (LeakyReLU α).df = x.map (fun u => if 0 < u then 1 else α) := by
  constructor
  · apply List.map_congr_left
    intro u _
    show max u (u * α) = max u (α * u)
    rw [mul_comm]
  · apply List.map_congr_left
    intro u _
    show max (if 0 < u then 1 else 0) α = if 0 < u then 1 else α
    by_cases hu : 0 < u
    · rw [if_pos hu, if_pos hu, max_eq_left h1]
    · rw [if_neg hu, if_neg hu, max_eq_right h0]

/-- C5 witness: α = 1/2 on the input `[1, -2]`. -/
theorem c5_leaky_relu_witness :
    0 ≤ (1/2 : ℝ) ∧ (1/2 : ℝ) ≤ 1 ∧
    (([1, -2] : Vec).map (LeakyReLU (1/2)).f =
        ([1, -2] : Vec).map (fun u => max u ((1/2) * u))
      ∧ ([1, -2] : Vec).map (LeakyReLU (1/2)).df =
        ([1, -2] : Vec).map (fun u => if 0 < u then 1 else (1/2))) :=
  ⟨by norm_num, by norm_num, c5_leaky_relu (1/2) (by norm_num) (by norm_num) [1, -2]⟩

/-- C6 counterexample: the claim's formula for the ELU derivative fails
for α < 0.  The code computes `np.maximum(x >= 0, alpha*(x < 0)*exp(x))`,
so with α = −1 the derivative at the negative input −1 is
`max(0, -e⁻¹) = 0`, not the claimed `α·e⁻¹ = -e⁻¹`. -/
theorem c6_counterexample :
    List.map (ELU (-1)).df [(-1 : ℝ)] ≠ [(-1 : ℝ) * Real.exp (-1)] := by
  have hexp := Real.exp_pos (-1 : ℝ)
  intro hcontra
  simp only [ELU, List.map_cons, List.map_nil, List.cons.injEq, and_true] at hcontra
  rw [if_neg (by norm_num), if_pos (by norm_num)] at hcontra
  rw [max_eq_left (by linarith)] at hcontra
  nlinarith

/-- C6 (amended): for a scale parameter α ≥ 0, `f` is elementwise `x`
where `x > 0` and `α(eˣ − 1)` elsewhere, `df` is elementwise 1 where
`x ≥ 0` and `α·eˣ` where `x < 0`, and the boundary input 0 yields
`df = 1`. -/
theorem c6_elu (α : ℝ) (h0 : 0 ≤ α) (x : Vec) :
    x.map (ELU α).f = x.map (fun u => if 0 < u then u else α * (Real.exp u - 1))
    ∧ x.map (ELU α).df = x.map (fun u => if 0 ≤ u then 1 else α * Real.exp u)
    ∧ (ELU α).df 0 = 1 := by
  refine ⟨rfl, ?_, ?_⟩
  · apply List.map_congr_left
    intro u _
    show max (if 0 ≤ u then 1 else 0) (α * (if u < 0 then 1 else 0) * Real.exp u) = _
    by_cases hu : 0 ≤ u
    · rw [if_pos hu, if_pos hu, if_neg (not_lt.mpr hu), mul_zero, zero_mul]
      exact max_eq_left zero_le_one
    · have hu' : u < 0 := lt_of_not_ge hu
      rw [if_neg hu, if_neg hu, if_pos hu', mul_one]
      exact max_eq_right (mul_nonneg h0 (Real.exp_pos u).le)
  · show max (if (0:ℝ) ≤ 0 then 1 else 0) (α * (if (0:ℝ) < 0 then 1 else 0) * Real.exp 0) = 1
    rw [if_pos le_rfl, if_neg (lt_irrefl 0), mul_zero, zero_mul]
    exact max_eq_left zero_le_one

/-- C6 witness: α = 1 on the input `[1, -1, 0]`. -/
theorem c6_elu_witness :
    0 ≤ (1 : ℝ) ∧
    (([1, -1, 0] : Vec).map (ELU 1).f =
        ([1, -1, 0] : Vec).map (fun u => if 0 < u then u else 1 * (Real.exp u - 1))
      ∧ ([1, -1, 0] : Vec).map (ELU 1).df =
        ([1, -1, 0] : Vec).map (fun u => if 0 ≤ u then 1 else 1 * Real.exp u)
      ∧ (ELU 1).df 0 = 1) :=
  ⟨by norm_num, c6_elu 1 (by norm_num) [1, -1, 0]⟩

/-- C7: the MSE loss of same-shape vectors and the cross-entropy loss at
a valid class index are non-negative. -/
theorem c7_losses_nonneg (v e : Vec) (t : ℕ) (he : e.length = v.length)
    (ht : t < v.length) :
    0 ≤ MSELoss.loss v e ∧ 0 ≤ CrossEntropyLoss.loss v t := by
  constructor
  · exact div_nonneg (zipWith_sq_sum_nonneg v e) (Nat.cast_nonneg v.length)
  · show 0 ≤ -(v.getD t 0) + Real.log ((v.map Real.exp).sum)
    have hv : v ≠ [] := by intro hnil; rw [hnil] at ht; simp at ht
    have hS := exp_sum_pos v hv
    have hmem : Real.exp (v.getD t 0) ∈ v.map Real.exp := by
      apply List.mem_map_of_mem
      rw [List.getD_eq_getElem v 0 ht]
      exact List.getElem_mem ht
    have hle : Real.exp (v.getD t 0) ≤ (v.map Real.exp).sum :=
      List.single_le_sum
        (fun y hy => by
          rcases List.mem_map.mp hy with ⟨s, _, rfl⟩
          exact (Real.exp_pos s).le)
        _ hmem
    have hlog := (Real.le_log_iff_exp_le hS).mpr hle
    linarith

/-- C7 witness: output `[0, 0]`, MSE target `[0, 0]`, class index 0. -/
theorem c7_losses_nonneg_witness :
    ([0, 0] : Vec).length = ([0, 0] : Vec).length ∧ 0 < ([0, 0] : Vec).length ∧
    0 ≤ MSELoss.loss [0, 0] [0, 0] ∧ 0 ≤ CrossEntropyLoss.loss [0, 0] 0 :=
  ⟨rfl, by norm_num,
   (c7_losses_nonneg [0, 0] [0, 0] 0 rfl (by norm_num)).1,
   (c7_losses_nonneg [0, 0] [0, 0] 0 rfl (by norm_num)).2⟩

/-! ## The training dynamics of the two concrete C9 networks -/

theorem constNet_train : constNet.train [0, 0] 0 = constNet := by
  simp [constNet, NeuralNetwork.train, xsList, backUpdate]

theorem constIter_eq (n : ℕ) : constIter n = constNet :=
  Function.iterate_fixed constNet_train n

theorem demoLayer_forward (c : ℝ) :
    (demoLayer c).forward_pass [1] = [2 * c, -(2 * c)] := by
  simp [demoLayer, Layer.forward_pass, vadd, matVec, dot, Id]
  constructor <;> ring

theorem demo_forward (c : ℝ) :
    (demoNet c).forward_pass [1] = [2 * c, -(2 * c)] := by
  simp only [demoNet, NeuralNetwork.forward_pass, List.foldl_cons, List.foldl_nil]
  exact demoLayer_forward c

theorem demo_train (c : ℝ) : (demoNet c).train [1] 0 = demoNet (demoStep c) := by
  have hS : (0:ℝ) < Real.exp (2 * c) + Real.exp (-(2 * c)) := by positivity
  simp only [NeuralNetwork.train, demoNet, xsList, demoLayer_forward, List.getLastD,
    List.dropLast, List.reverse_cons, List.reverse_nil, List.nil_append, List.zip,
    List.zipWith, backUpdate, updLayer, dxProp, List.reverse_cons]
  simp [demoLayer, CrossEntropyLoss, vadd, matVec, dot, Id, hadamard, outer, msub,
    smulM, smulV, vsub, demoStep, NeuralNetwork.mk.injEq, Layer.mk.injEq]
  constructor
  · field_simp
  · ring

theorem demoC_succ (n : ℕ) : demoC (n + 1) = demoStep (demoC n) := by
  rw [demoC, demoC, Function.iterate_succ_apply']

theorem demoIter_succ (n : ℕ) : demoIter (n + 1) = (demoIter n).train [1] 0 := by
  rw [demoIter, demoIter, Function.iterate_succ_apply']

theorem demoIter_eq (n : ℕ) : demoIter n = demoNet (demoC n) := by
  induction n with
  | zero => rw [demoIter, demoC]; rfl
  | succ n ih => rw [demoIter_succ, ih, demo_train, demoC_succ]

theorem demoNet_loss (c : ℝ) :
    (demoNet c).loss ((demoNet c).forward_pass [1]) 0 =
      Real.log (1 + Real.exp (-(4 * c))) := by
  rw [demo_forward]
  have key : (Real.exp (2 * c) + Real.exp (-(2 * c))) * Real.exp (-(2 * c)) =
      1 + Real.exp (-(4 * c)) := by
    rw [add_mul, ← Real.exp_add, ← Real.exp_add]
    norm_num
    ring
  show CrossEntropyLoss.loss [2 * c, -(2 * c)] 0 = _
  simp only [CrossEntropyLoss, List.map_cons, List.map_nil, List.sum_cons,
    List.sum_nil, List.getD_cons_zero]
  rw [← key, Real.log_mul (by positivity) (Real.exp_ne_zero _), Real.log_exp]
  ring

theorem demoLoss_eq (n : ℕ) :
    demoLoss n = Real.log (1 + Real.exp (-(4 * demoC n))) := by
  rw [demoLoss, demoIter_eq]
  exact demoNet_loss (demoC n)

theorem demoStep_gt (c : ℝ) : c < demoStep c := by
  rw [demoStep]
  have h : (0:ℝ) < Real.exp (-(2 * c)) / (Real.exp (2 * c) + Real.exp (-(2 * c))) := by
    positivity
  linarith

theorem demoC_strictMono : StrictMono demoC :=
  strictMono_nat_of_lt_succ (fun n => by rw [demoC_succ]; exact demoStep_gt (demoC n))

theorem demoLoss_lt (m n : ℕ) (h : m < n) : demoLoss n < demoLoss m := by
  rw [demoLoss_eq, demoLoss_eq]
  apply Real.log_lt_log (by positivity)
  have hc : demoC m < demoC n := demoC_strictMono h
  have hexp : Real.exp (-(4 * demoC n)) < Real.exp (-(4 * demoC m)) :=
    Real.exp_lt_exp.mpr (by linarith)
  linarith

/-- C9 counterexample: for the layer-free cross-entropy network
`constNet`, `train` updates nothing, so the loss sequence measured
between successive `train([0,0], 0)` calls is constant: it is not
strictly decreasing, and after 50 calls the loss is not smaller than its
initial value — refuting the claim's universal quantification over
networks. -/
theorem c9_counterexample :
    ¬ (constLoss 1 < constLoss 0) ∧ ¬ (constLoss 50 < constLoss 0) := by
  have h : ∀ n, constLoss n = constLoss 0 := by
    intro n
    simp only [constLoss, constIter_eq]
  rw [h 1, h 50]
  exact ⟨lt_irrefl _, lt_irrefl _⟩

/-- C9 (amended): the monotone-decrease property does not hold for every
network, but it holds for suitable configurations: for the one-layer
identity-activation cross-entropy network `demoNet 0` (weights
`[[0],[0]]`, biases `[0,0]`, learning rate 1) trained repeatedly on the
example `x = [1]`, `t = 0`, the loss `loss(forward_pass([1]), 0)` is
strictly decreasing at every step, and after any `n ≥ 50` calls it is
smaller than its initial value. -/
theorem c9_single_example_overfit (m n : ℕ) (h : 50 ≤ n) :
    demoLoss (m + 1) < demoLoss m ∧ demoLoss n < demoLoss 0 :=
  ⟨demoLoss_lt m (m + 1) (Nat.lt_succ_self m), demoLoss_lt 0 n (by omega)⟩

/-- C9 witness: the first step and the 50th step of the overfitting
scenario. -/
theorem c9_single_example_overfit_witness :
    50 ≤ 50 ∧ (demoLoss 1 < demoLoss 0 ∧ demoLoss 50 < demoLoss 0) :=
  ⟨by norm_num, c9_single_example_overfit 0 50 (by norm_num)⟩

end nn
